import Mathlib

/-!
# Verification of the wav_analysis spectral pipeline

Shallow embedding of `src/main.rs` (crate `wav_analysis`). Numeric values
(`f32` in the Rust source) are modelled as rationals `ℚ`; the arithmetic the
claims depend on (bin-frequency formula, summation and division by a count)
is exact in `f32` for the instances checked, and the structural claims
(lengths, round-trips, dispatch) do not depend on rounding at all.

External crates (`rustfft`, `bincode`, `hound`, `eframe`) are collaborators,
not code of this repository:
* the FFT (`fft.process(&mut buffer)`) mutates the buffer in place, so it is
  modelled as an explicit function parameter `fft`; because the Rust call is
  in place, the buffer length is preserved, which theorems take as the
  hypothesis `∀ l, (fft l).length = l.length`;
* the complex modulus `c.norm()` is an explicit parameter `norm`;
* `bincode` (v1, default configuration) is modelled byte-for-byte:
  little-endian fixed-width integers, `Vec<f32>` as a `u64` length prefix
  followed by 4 bytes per element, `String` as a `u64` byte-length prefix
  followed by the UTF-8 bytes.  `f32` payloads serialize as their 32-bit
  patterns, modelled as naturals `< 2^32`; bytes as naturals `< 256`;
* file paths handed to `main`'s dispatch are modelled as `List Char`
  (`str::ends_with` does not reduce through Lean's `String` API, and the
  Rust code only ever inspects the path's suffix).
-/

namespace WavAnalysis

/-- The `PlotData` struct of `main.rs` (fields `freqs`, `amplitudes`,
`file_name`), with `f32` modelled as `ℚ`. -/
structure PlotData where
  freqs : List ℚ
  amplitudes : List ℚ
  file_name : String
deriving DecidableEq

/-- `PlotData::default()`: empty sequences and the empty string. -/
def PlotData.default : PlotData := ⟨[], [], ""⟩

/-- `fourier_analysis` from `main.rs`:
the samples are mapped to complex numbers with zero imaginary part, the
external FFT transforms the buffer in place, then
`freqs[i] = i * sample_rate / samples.len()` for `i` ranging over the first
half of the buffer, and the amplitudes are the moduli of the first half of
the buffer.  `fft` and `norm` stand for the external `rustfft` transform and
`Complex::norm`. -/
def fourier_analysis (fft : List (ℚ × ℚ) → List (ℚ × ℚ)) (norm : ℚ × ℚ → ℚ)
    (samples : List ℚ) (sample_rate : ℕ) : List ℚ × List ℚ :=
  let buffer := fft (samples.map fun s => (s, 0))
  let freqs := (List.range (buffer.length / 2)).map
    fun (i : ℕ) => (i : ℚ) * (sample_rate : ℚ) / (samples.length : ℚ)
  let amplitudes := (buffer.take (buffer.length / 2)).map norm
  (freqs, amplitudes)

/-- A sample modulus standing in for `Complex::norm` in concrete witnesses
(the claims under check never inspect magnitude values produced by the FFT,
only their count). -/
def normSq (c : ℚ × ℚ) : ℚ := c.1 * c.1 + c.2 * c.2

/-!
## The averaging loop of `MyApp::update`

```rust
let mut avg_amplitudes = vec![0.0; self.plots[0].amplitudes.len()];
for plot_data in &self.plots {
    for (i, &amp) in plot_data.amplitudes.iter().enumerate() {
        if let Some(avg_amp) = avg_amplitudes.get_mut(i) {
            avg_amp.add_assign(amp);
        } else {
            avg_amplitudes.push(amp);
        }
    }
}
avg_amplitudes.iter_mut().for_each(|amp| *amp /= self.plots.len() as f32);
```
-/

/-- The inner `for (i, &amp) in ... enumerate()` loop: `i` is the running
index; an existing accumulator slot is incremented, a missing one is pushed
at the back. -/
def accumLoop : ℕ → List ℚ → List ℚ → List ℚ
  | _, acc, [] => acc
  | i, acc, a :: as =>
    accumLoop (i + 1)
      (if i < acc.length then acc.set i (acc.getD i 0 + a) else acc ++ [a]) as

/-- One pass of the inner loop over one plot's amplitudes, starting at
index `0` (direct embedding of the Rust loop body for one `plot_data`). -/
def innerLoop (acc amps : List ℚ) : List ℚ := accumLoop 0 acc amps

/-- Elementwise addition padding the shorter list with the longer list's
tail — the closed form of `innerLoop` (proved below as `innerLoop_eq_addPad`). -/
def addPad : List ℚ → List ℚ → List ℚ
  | [], ys => ys
  | x :: xs, [] => x :: xs
  | x :: xs, y :: ys => (x + y) :: addPad xs ys

/-- The accumulated then divided average amplitudes of `MyApp::update`. -/
def avgAmplitudes (plots : List PlotData) : List ℚ :=
  (plots.foldl (fun acc pd => innerLoop acc pd.amplitudes)
      (List.replicate (plots.headD PlotData.default).amplitudes.length 0)).map
    fun a => a / (plots.length : ℚ)

/-- The average-plot computation of `MyApp::update`: executed only under the
`self.plots.len() > 0` guard; `none` models the skipped branch. The result's
`freqs` are cloned from `plots[0]` and its label is `"average"`. -/
def computeAvgPlot (plots : List PlotData) : Option PlotData :=
  if plots.length > 0 then
    some ⟨(plots.headD PlotData.default).freqs, avgAmplitudes plots, "average"⟩
  else
    none

/-- The effect of one `update` frame on `self.avg_plot`: replaced by the
fresh average when the guard passes, left untouched otherwise. -/
def updateAvgPlot (plots : List PlotData) (old : PlotData) : PlotData :=
  match computeAvgPlot plots with
  | some p => p
  | none => old

/-- Maximum `amplitudes` length over a list of plots. -/
def maxAmpLen (plots : List PlotData) : ℕ :=
  (plots.map fun pd => pd.amplitudes.length).foldr max 0

/-!
## The bincode record behind `read_f` and the save button

`bincode::serialize(&PlotData)` (bincode v1, default options) writes, in
field order: a `u64` little-endian element count followed by 4 bytes per
`f32` for `freqs`, the same for `amplitudes`, then a `u64` little-endian
byte count followed by the UTF-8 bytes of `file_name`.  `f32` values travel
as their 32-bit patterns (naturals `< 2^32`), the string as its bytes
(naturals `< 256`). -/

/-- The same `PlotData` struct viewed at the serialization boundary:
`f32`s as 32-bit patterns, the string as its UTF-8 bytes. -/
structure PlotDataBits where
  freqs : List ℕ
  amplitudes : List ℕ
  file_name : List ℕ
deriving DecidableEq

/-- `k`-byte little-endian encoding of `n`. -/
def bytesLE : ℕ → ℕ → List ℕ
  | 0, _ => []
  | k + 1, n => n % 256 :: bytesLE k (n / 256)

/-- Little-endian byte decoding. -/
def fromBytesLE : List ℕ → ℕ
  | [] => 0
  | b :: bs => b + 256 * fromBytesLE bs

/-- The payload bytes of a `Vec<f32>`: 4 bytes per element. -/
def wordsBytes (ws : List ℕ) : List ℕ := (ws.map (bytesLE 4)).flatten

/-- `bincode::serialize(&pd)`: the byte record written by the
"Save average plot" button. -/
def serializePlotData (pd : PlotDataBits) : List ℕ :=
  bytesLE 8 pd.freqs.length ++ wordsBytes pd.freqs ++
    bytesLE 8 pd.amplitudes.length ++ wordsBytes pd.amplitudes ++
      bytesLE 8 pd.file_name.length ++ pd.file_name

/-- Consume `k` bytes of input; `none` models bincode's "unexpected end of
input" deserialization error. -/
def readBytesP (k : ℕ) (l : List ℕ) : Option (List ℕ × List ℕ) :=
  if k ≤ l.length then some (l.take k, l.drop k) else none

/-- Read a little-endian `u64`. -/
def readU64 (l : List ℕ) : Option (ℕ × List ℕ) :=
  (readBytesP 8 l).map fun p => (fromBytesLE p.1, p.2)

/-- Read `k` consecutive `f32` patterns. -/
def readWords : ℕ → List ℕ → Option (List ℕ × List ℕ)
  | 0, l => some ([], l)
  | k + 1, l => do
    let (b, l1) ← readBytesP 4 l
    let (ws, l2) ← readWords k l1
    pure (fromBytesLE b :: ws, l2)

/-- Read a length-prefixed `Vec<f32>`. -/
def readVec (l : List ℕ) : Option (List ℕ × List ℕ) := do
  let (n, l1) ← readU64 l
  readWords n l1

/-- Read a length-prefixed UTF-8 string (as raw bytes). -/
def readStr (l : List ℕ) : Option (List ℕ × List ℕ) := do
  let (n, l1) ← readU64 l
  readBytesP n l1

/-- `bincode::deserialize_from::<_, PlotData>`: the three fields in order;
trailing bytes are not an error for a stream deserializer. -/
def deserializePlotData (l : List ℕ) : Option PlotDataBits := do
  let (fr, l1) ← readVec l
  let (am, l2) ← readVec l1
  let (nm, _l3) ← readStr l2
  pure ⟨fr, am, nm⟩

/-- `read_f` from `main.rs`: deserialize a `PlotData` record and return
**only** `(plot_data.freqs, plot_data.amplitudes)` — the stored `file_name`
is dropped. -/
def read_f (bytes : List ℕ) : Option (List ℕ × List ℕ) :=
  (deserializePlotData bytes).map fun p => (p.freqs, p.amplitudes)

/-- The `.f` branch of `main`'s loop: the pair returned by `read_f` is
packed into a fresh `PlotData` whose `file_name` is the **input path**
(as UTF-8 bytes), not the stored label. -/
def loadCached (pathBytes : List ℕ) (bytes : List ℕ) : Option PlotDataBits :=
  (read_f bytes).map fun p => ⟨p.1, p.2, pathBytes⟩

/-- Well-formedness of a record at the serialization boundary: sequence
lengths fit in a `u64` (they are Rust `usize` values), `f32` patterns fit in
32 bits, string bytes are bytes. -/
def ValidBits (pd : PlotDataBits) : Prop :=
  pd.freqs.length < 2 ^ 64 ∧ (∀ w ∈ pd.freqs, w < 2 ^ 32) ∧
    pd.amplitudes.length < 2 ^ 64 ∧ (∀ w ∈ pd.amplitudes, w < 2 ^ 32) ∧
      pd.file_name.length < 2 ^ 64 ∧ (∀ b ∈ pd.file_name, b < 256)

instance (pd : PlotDataBits) : Decidable (ValidBits pd) := by
  unfold ValidBits; infer_instance

/-!
## `main`'s per-file dispatch -/

/-- Rust's `str::ends_with`, on the path's characters. -/
def endsWithL (path suffix : List Char) : Bool :=
  suffix.length ≤ path.length && path.drop (path.length - suffix.length) == suffix

/-- Outcome of `main`'s file loop: `launched plots` reaches
`eframe::run_native` with the collected plots; `unsupportedExit` is the
`else` branch (prints "Unsupported file format" to stderr and
`return Ok(())` — a *successful* process exit); `failed e` is an `Err`
propagated by `?` from `read_wav` or `read_f`. -/
inductive ProcessOutcome where
  | launched (plots : List PlotData)
  | unsupportedExit
  | failed (msg : String)
deriving DecidableEq

/-- The `for file in all_files` loop of `main`: per path, dispatch on the
extension; `readWavExt` and `readFExt` model the two file-reading functions
(their I/O is external), `fft`/`norm` the external FFT as above. -/
def processFiles (readWavExt : List Char → Except String (List ℚ × ℕ))
    (readFExt : List Char → Except String (List ℚ × List ℚ))
    (fft : List (ℚ × ℚ) → List (ℚ × ℚ)) (norm : ℚ × ℚ → ℚ) :
    List (List Char) → List PlotData → ProcessOutcome
  | [], plots => .launched plots
  | path :: rest, plots =>
    if endsWithL path ".wav".toList then
      match readWavExt path with
      | .error e => .failed e
      | .ok (samples, sample_rate) =>
        let fa := fourier_analysis fft norm samples sample_rate
        processFiles readWavExt readFExt fft norm rest
          (plots ++ [⟨fa.1, fa.2, String.mk path⟩])
    else if endsWithL path ".f".toList then
      match readFExt path with
      | .error e => .failed e
      | .ok (fr, am) =>
        processFiles readWavExt readFExt fft norm rest
          (plots ++ [⟨fr, am, String.mk path⟩])
    else
      .unsupportedExit

/-!
## Theorems: the transform (claims C4, C5, C7) -/

/-- C4: Transform output length: for every input signal of N samples, the
transform returns exactly floor(N/2) frequency bins, with one magnitude per
bin.  The hypothesis records that the external FFT operates in place on the
buffer (so cannot change its length). -/
theorem fourier_analysis_length (fft : List (ℚ × ℚ) → List (ℚ × ℚ))
    (norm : ℚ × ℚ → ℚ) (samples : List ℚ) (sample_rate : ℕ)
    (hfft : ∀ l, (fft l).length = l.length) :
    (fourier_analysis fft norm samples sample_rate).1.length = samples.length / 2 ∧
    (fourier_analysis fft norm samples sample_rate).2.length = samples.length / 2 := by
  constructor <;>
    simp [fourier_analysis, hfft, Nat.min_eq_left (Nat.div_le_self samples.length 2)]

theorem fourier_analysis_length_witness :
    (∀ l : List (ℚ × ℚ), (id l).length = l.length) ∧
    (fourier_analysis id normSq [1, 2, 3, 4, 5] 1000).1.length = 2 ∧
    (fourier_analysis id normSq [1, 2, 3, 4, 5] 1000).2.length = 2 := by
  refine ⟨fun l => rfl, ?_⟩
  exact fourier_analysis_length id normSq [1, 2, 3, 4, 5] 1000 fun l => rfl

/-- C5 (counterexample): the claim says the transform on an empty sample
sequence "fails with EmptySignal"; in the code `fourier_analysis` has no
error path at all (its return type is a plain pair, and `main.rs` contains
no `EmptySignal` value): on the empty signal it returns the empty spectrum
(zero bins, zero magnitudes). -/
theorem fourier_analysis_empty_counterexample :
    fourier_analysis id normSq [] 8000 = ([], []) := rfl

/-- C5 (amended): applying the transform to a sample sequence of length zero
returns a spectrum with zero bins and zero magnitudes; no error is signalled
(the code has no `EmptySignal` error path). -/
theorem fourier_analysis_empty (fft : List (ℚ × ℚ) → List (ℚ × ℚ))
    (norm : ℚ × ℚ → ℚ) (sample_rate : ℕ)
    (hfft : ∀ l, (fft l).length = l.length) :
    fourier_analysis fft norm [] sample_rate = ([], []) := by
  have hb : fft [] = [] := List.length_eq_zero.mp (by simpa using hfft [])
  simp [fourier_analysis, hb]

theorem fourier_analysis_empty_witness :
    fourier_analysis id normSq [] 44100 = ([], []) :=
  fourier_analysis_empty id normSq 44100 fun _ => rfl

/-- C7: Bin-frequency mapping: for every retained bin `i` (that is,
`i < N / 2` where `N` is the sample count), the frequency of bin `i` equals
`i * sample_rate / N`; in particular for `N = 8` and `sample_rate = 8000`
bin `i`'s frequency equals `i * 1000` exactly. -/
theorem fourier_analysis_bin_freq (fft : List (ℚ × ℚ) → List (ℚ × ℚ))
    (norm : ℚ × ℚ → ℚ) (samples : List ℚ) (sample_rate : ℕ) (i : ℕ)
    (hfft : ∀ l, (fft l).length = l.length) (hi : i < samples.length / 2) :
    (fourier_analysis fft norm samples sample_rate).1.getD i 0 =
      (i : ℚ) * (sample_rate : ℚ) / (samples.length : ℚ) ∧
    (samples.length = 8 → sample_rate = 8000 →
      (fourier_analysis fft norm samples sample_rate).1.getD i 0 = (i : ℚ) * 1000) := by
  have hlen : (fourier_analysis fft norm samples sample_rate).1.length =
      samples.length / 2 := (fourier_analysis_length fft norm samples sample_rate hfft).1
  have hmem : i < (fourier_analysis fft norm samples sample_rate).1.length := by
    omega
  have hval : (fourier_analysis fft norm samples sample_rate).1.getD i 0 =
      (i : ℚ) * (sample_rate : ℚ) / (samples.length : ℚ) := by
    rw [List.getD_eq_getElem _ _ hmem]
    simp [fourier_analysis, hfft]
  refine ⟨hval, fun hN hsr => ?_⟩
  rw [hval, hN, hsr]
  norm_num
  ring

theorem fourier_analysis_bin_freq_witness :
    (∀ l : List (ℚ × ℚ), (id l).length = l.length) ∧
    (3 : ℕ) < ([1, 2, 3, 4, 5, 6, 7, 8] : List ℚ).length / 2 ∧
    (fourier_analysis id normSq [1, 2, 3, 4, 5, 6, 7, 8] 8000).1.getD 3 0 = 3000 := by
  refine ⟨fun l => rfl, by decide, ?_⟩
  have h := (fourier_analysis_bin_freq id normSq [1, 2, 3, 4, 5, 6, 7, 8] 8000 3
    (fun l => rfl) (by decide)).2 (by decide) rfl
  rw [h]
  norm_num

/-!
## Theorems: the averaging loop (claims C2, C3, C6, C8) -/

theorem addPad_length (xs ys : List ℚ) :
    (addPad xs ys).length = max xs.length ys.length := by
  induction xs generalizing ys with
  | nil => simp [addPad]
  | cons x xs ih =>
    cases ys with
    | nil => simp [addPad]
    | cons y ys => simp [addPad, ih, Nat.succ_max_succ]

theorem addPad_getD (xs ys : List ℚ) (i : ℕ) :
    (addPad xs ys).getD i 0 = xs.getD i 0 + ys.getD i 0 := by
  induction xs generalizing ys i with
  | nil => simp [addPad]
  | cons x xs ih =>
    cases ys with
    | nil => simp [addPad]
    | cons y ys =>
      cases i with
      | zero => simp [addPad]
      | succ j => simpa [addPad] using ih ys j

theorem addPad_nil (xs : List ℚ) : addPad xs [] = xs := by
  cases xs <;> rfl

/-- Shifting the loop index and the accumulator head in lockstep commutes
with the loop. -/
theorem accumLoop_cons (amps : List ℚ) :
    ∀ (i : ℕ) (x : ℚ) (acc : List ℚ),
      accumLoop (i + 1) (x :: acc) amps = x :: accumLoop i acc amps := by
  induction amps with
  | nil => intro i x acc; rfl
  | cons a as ih =>
    intro i x acc
    have hstep : (if i + 1 < (x :: acc).length
          then (x :: acc).set (i + 1) ((x :: acc).getD (i + 1) 0 + a)
          else (x :: acc) ++ [a]) =
        x :: (if i < acc.length then acc.set i (acc.getD i 0 + a) else acc ++ [a]) := by
      by_cases h : i < acc.length <;> simp [h]
    rw [accumLoop, hstep, ih, accumLoop]

/-- The inner accumulation loop is elementwise addition with padding: the
closed form of the `get_mut`/`push` loop body. -/
theorem innerLoop_eq_addPad (amps : List ℚ) :
    ∀ acc : List ℚ, innerLoop acc amps = addPad acc amps := by
  induction amps with
  | nil => intro acc; rw [innerLoop, accumLoop, addPad_nil]
  | cons a as ih =>
    intro acc
    cases acc with
    | nil => simpa [innerLoop, accumLoop, accumLoop_cons, addPad] using ih []
    | cons x xs => simpa [innerLoop, accumLoop, accumLoop_cons, addPad] using ih xs

theorem maxAmpLen_cons (pd : PlotData) (ps : List PlotData) :
    maxAmpLen (pd :: ps) = max pd.amplitudes.length (maxAmpLen ps) := rfl

theorem foldl_innerLoop_length (plots : List PlotData) :
    ∀ acc : List ℚ,
      (plots.foldl (fun acc pd => innerLoop acc pd.amplitudes) acc).length =
        max acc.length (maxAmpLen plots) := by
  induction plots with
  | nil => intro acc; simp [maxAmpLen]
  | cons pd ps ih =>
    intro acc
    simp only [List.foldl_cons]
    rw [ih, innerLoop_eq_addPad, addPad_length, maxAmpLen_cons, Nat.max_assoc]

theorem foldl_innerLoop_getD (plots : List PlotData) (i : ℕ) :
    ∀ acc : List ℚ,
      (plots.foldl (fun acc pd => innerLoop acc pd.amplitudes) acc).getD i 0 =
        acc.getD i 0 + (plots.map fun pd => pd.amplitudes.getD i 0).sum := by
  induction plots with
  | nil => intro acc; simp
  | cons pd ps ih =>
    intro acc
    simp only [List.foldl_cons, List.map_cons, List.sum_cons]
    rw [ih, innerLoop_eq_addPad, addPad_getD]
    ring

theorem getD_replicate_zero (n i : ℕ) : (List.replicate n (0 : ℚ)).getD i 0 = 0 := by
  rcases Nat.lt_or_ge i n with h | h
  · rw [List.getD_eq_getElem _ _ (by simpa using h)]
    simp
  · exact List.getD_eq_default _ _ (by simpa using h)

theorem getD_map_div (xs : List ℚ) (c : ℚ) (i : ℕ) (h : i < xs.length) :
    (xs.map fun a => a / c).getD i 0 = xs.getD i 0 / c := by
  rw [List.getD_eq_getElem _ _ (by simpa using h), List.getD_eq_getElem _ _ h]
  simp

/-- Entries absent from a spectrum contribute `0`, so summing over the
spectra that do have index `i` equals summing over all of them. -/
theorem sum_filter_getD (plots : List PlotData) (i : ℕ) :
    ((plots.filter fun pd => i < pd.amplitudes.length).map
        fun pd => pd.amplitudes.getD i 0).sum =
      (plots.map fun pd => pd.amplitudes.getD i 0).sum := by
  induction plots with
  | nil => rfl
  | cons pd ps ih =>
    by_cases h : i < pd.amplitudes.length
    · rw [List.filter_cons_of_pos (by simpa using h), List.map_cons, List.sum_cons,
        List.map_cons, List.sum_cons, ih]
    · have h0 : pd.amplitudes.getD i 0 = 0 := List.getD_eq_default _ _ (by omega)
      rw [List.filter_cons_of_neg (by simpa using h), List.map_cons, List.sum_cons, ih,
        h0, zero_add]

theorem headD_ampLen_le (plots : List PlotData) (h : plots ≠ []) :
    (plots.headD PlotData.default).amplitudes.length ≤ maxAmpLen plots := by
  cases plots with
  | nil => exact absurd rfl h
  | cons pd ps =>
    rw [List.headD_cons, maxAmpLen_cons]
    exact le_max_left _ _

theorem avgAmplitudes_length (plots : List PlotData) (h : plots ≠ []) :
    (avgAmplitudes plots).length = maxAmpLen plots := by
  rw [avgAmplitudes, List.length_map, foldl_innerLoop_length, List.length_replicate]
  exact Nat.max_eq_right (headD_ampLen_le plots h)

/-- C2: Aggregation semantics with unequal lengths: for every non-empty list
of spectra the averaged magnitudes have length equal to the maximum
magnitudes length over all inputs, and entry `i` is the sum of
`magnitudes[i]` over exactly the spectra that have an entry at `i`, divided
by the total number of spectra. -/
theorem avgAmplitudes_semantics (plots : List PlotData) (hne : plots ≠ []) :
    (avgAmplitudes plots).length = maxAmpLen plots ∧
    ∀ i, i < maxAmpLen plots →
      (avgAmplitudes plots).getD i 0 =
        ((plots.filter fun pd => i < pd.amplitudes.length).map
            fun pd => pd.amplitudes.getD i 0).sum / (plots.length : ℚ) := by
  refine ⟨avgAmplitudes_length plots hne, fun i hi => ?_⟩
  have hfl : (plots.foldl (fun acc pd => innerLoop acc pd.amplitudes)
      (List.replicate (plots.headD PlotData.default).amplitudes.length 0)).length =
      maxAmpLen plots := by
    rw [foldl_innerLoop_length, List.length_replicate]
    exact Nat.max_eq_right (headD_ampLen_le plots hne)
  rw [avgAmplitudes, getD_map_div _ _ _ (by rw [hfl]; exact hi), foldl_innerLoop_getD,
    getD_replicate_zero, sum_filter_getD, zero_add]

theorem avgAmplitudes_semantics_witness :
    (([⟨[10, 20], [2, 4], "a"⟩, ⟨[10, 20, 30], [4, 8, 6], "b"⟩] : List PlotData) ≠ []) ∧
    (avgAmplitudes [⟨[10, 20], [2, 4], "a"⟩, ⟨[10, 20, 30], [4, 8, 6], "b"⟩]).length =
      maxAmpLen [⟨[10, 20], [2, 4], "a"⟩, ⟨[10, 20, 30], [4, 8, 6], "b"⟩] ∧
    (avgAmplitudes [⟨[10, 20], [2, 4], "a"⟩, ⟨[10, 20, 30], [4, 8, 6], "b"⟩]).getD 2 0 =
      ((([⟨[10, 20], [2, 4], "a"⟩, ⟨[10, 20, 30], [4, 8, 6], "b"⟩] :
            List PlotData).filter fun pd => 2 < pd.amplitudes.length).map
          fun pd => pd.amplitudes.getD 2 0).sum /
        (([⟨[10, 20], [2, 4], "a"⟩, ⟨[10, 20, 30], [4, 8, 6], "b"⟩] :
            List PlotData).length : ℚ) := by
  have h := avgAmplitudes_semantics
    [⟨[10, 20], [2, 4], "a"⟩, ⟨[10, 20, 30], [4, 8, 6], "b"⟩] (by simp)
  exact ⟨by simp, h.1, h.2 2 (by decide)⟩

/-- Summing the same amplitude list three times into a zero accumulator of
matching length and dividing by `3` gives the list back (exactly, in `ℚ`). -/
theorem triple_avg_list (l : List ℚ) :
    (addPad (addPad (addPad (List.replicate l.length 0) l) l) l).map
        (fun a => a / (3 : ℚ)) = l := by
  induction l with
  | nil => rfl
  | cons x xs ih =>
    simp only [List.length_cons, List.replicate_succ, addPad, List.map_cons, ih,
      List.cons.injEq]
    exact ⟨by ring, trivial⟩

theorem avgAmplitudes_triple (s : PlotData) :
    avgAmplitudes [s, s, s] = s.amplitudes := by
  have h3 : ((([s, s, s] : List PlotData).length : ℕ) : ℚ) = 3 := by norm_num
  rw [avgAmplitudes]
  simp only [List.foldl_cons, List.foldl_nil, innerLoop_eq_addPad, List.headD_cons, h3]
  exact triple_avg_list s.amplitudes

/-- C8: Averaging identity: averaging the three-element list `[s, s, s]`
yields a spectrum whose magnitudes sequence equals `s`'s magnitudes
sequence (exact in `ℚ`; in `f32` the sum `x+x+x` and the division by `3`
can round, but the claim is about the aggregation semantics, which the
rational model captures exactly). -/
theorem average_triple_identity (s : PlotData) :
    (computeAvgPlot [s, s, s]).map (fun p => p.amplitudes) = some s.amplitudes := by
  rw [computeAvgPlot, if_pos (by simp), Option.map, avgAmplitudes_triple]

/-- C6 (counterexample): the claim says averaging zero spectra "fails with
EmptyInput"; in the code the whole average computation sits behind the
`self.plots.len() > 0` guard: with zero spectra nothing is computed, no
error value exists, and the previous `avg_plot` is silently kept. -/
theorem emptyPlots_counterexample :
    computeAvgPlot [] = none ∧
      updateAvgPlot [] ⟨[10], [5], "avg"⟩ = ⟨[10], [5], "avg"⟩ :=
  ⟨rfl, rfl⟩

/-- C6 (amended): with an empty spectrum list the guarded average branch is
skipped: no average spectrum is produced, no division by the zero count is
attempted, and the previously stored average plot is left unchanged; no
`EmptyInput` error is raised (none exists in the code). -/
theorem emptyPlots_skip (old : PlotData) :
    computeAvgPlot [] = none ∧ updateAvgPlot [] old = old :=
  ⟨rfl, rfl⟩

/-!
## Theorems: the bincode codec (claims C1, C10 and part of C3) -/

theorem bytesLE_length (k n : ℕ) : (bytesLE k n).length = k := by
  induction k generalizing n with
  | zero => rfl
  | succ m ih => simp [bytesLE, ih]

theorem fromBytesLE_bytesLE (k n : ℕ) (h : n < 256 ^ k) :
    fromBytesLE (bytesLE k n) = n := by
  induction k generalizing n with
  | zero =>
    simp only [bytesLE, fromBytesLE]
    omega
  | succ m ih =>
    have hdiv : n / 256 < 256 ^ m := by
      rw [Nat.div_lt_iff_lt_mul (by norm_num : (0 : ℕ) < 256)]
      calc n < 256 ^ (m + 1) := h
        _ = 256 ^ m * 256 := by ring
    rw [bytesLE, fromBytesLE, ih _ hdiv, Nat.mod_add_div]

theorem readBytesP_exact (xs rest : List ℕ) (k : ℕ) (h : xs.length = k) :
    readBytesP k (xs ++ rest) = some (xs, rest) := by
  rw [readBytesP, if_pos (by simp; omega), List.take_left' h, List.drop_left' h]

theorem readU64_roundtrip (n : ℕ) (rest : List ℕ) (h : n < 2 ^ 64) :
    readU64 (bytesLE 8 n ++ rest) = some (n, rest) := by
  rw [readU64, readBytesP_exact _ _ _ (bytesLE_length 8 n)]
  simp [fromBytesLE_bytesLE 8 n (by norm_num at h ⊢; omega)]

theorem readWords_roundtrip (ws : List ℕ) (hw : ∀ w ∈ ws, w < 2 ^ 32) :
    ∀ rest : List ℕ, readWords ws.length (wordsBytes ws ++ rest) = some (ws, rest) := by
  induction ws with
  | nil => intro rest; simp [readWords, wordsBytes]
  | cons w ws ih =>
    intro rest
    have hwB : wordsBytes (w :: ws) = bytesLE 4 w ++ wordsBytes ws := by
      simp [wordsBytes]
    rw [List.length_cons, hwB, List.append_assoc, readWords,
      readBytesP_exact _ _ _ (bytesLE_length 4 w)]
    simp only [Option.bind_eq_bind, Option.some_bind]
    rw [ih (fun x hx => hw x (List.mem_cons_of_mem w hx)) rest]
    simp [fromBytesLE_bytesLE 4 w
      (by have := hw w (List.mem_cons_self w ws); norm_num at this ⊢; omega)]

theorem readVec_roundtrip (ws rest : List ℕ) (hlen : ws.length < 2 ^ 64)
    (hw : ∀ w ∈ ws, w < 2 ^ 32) :
    readVec (bytesLE 8 ws.length ++ wordsBytes ws ++ rest) = some (ws, rest) := by
  rw [readVec, List.append_assoc, readU64_roundtrip _ _ hlen]
  simpa using readWords_roundtrip ws hw rest

theorem readStr_roundtrip (bs rest : List ℕ) (hlen : bs.length < 2 ^ 64) :
    readStr (bytesLE 8 bs.length ++ bs ++ rest) = some (bs, rest) := by
  rw [readStr, List.append_assoc, readU64_roundtrip _ _ hlen]
  simpa using readBytesP_exact bs rest _ rfl

theorem readStr_roundtrip_exact (bs : List ℕ) (hlen : bs.length < 2 ^ 64) :
    readStr (bytesLE 8 bs.length ++ bs) = some (bs, []) := by
  simpa using readStr_roundtrip bs [] hlen

/-- The full bincode record round-trips: all three fields, label included,
are recovered from the bytes by the deserializer itself. -/
theorem deserialize_serialize (pd : PlotDataBits) (h : ValidBits pd) :
    deserializePlotData (serializePlotData pd) = some pd := by
  obtain ⟨h1, h2, h3, h4, h5, _h6⟩ := h
  rw [serializePlotData, deserializePlotData]
  simp only [List.append_assoc]
  rw [← List.append_assoc (bytesLE 8 pd.freqs.length) (wordsBytes pd.freqs),
    readVec_roundtrip _ _ h1 h2]
  simp only [Option.bind_eq_bind, Option.some_bind]
  rw [← List.append_assoc (bytesLE 8 pd.amplitudes.length) (wordsBytes pd.amplitudes),
    readVec_roundtrip _ _ h3 h4]
  simp only [Option.some_bind]
  rw [readStr_roundtrip_exact _ h5]
  rfl

/-- C1 (counterexample): the claim asserts `load(save(s)) == s` field for
field *including the label*; but the program's load path (`read_f` plus the
caller in `main`) replaces the stored label with the input file path: for a
record labelled `[0x61]` (`"a"`) read back from a path `[0x62]` (`"b"`),
the loaded `PlotData` differs from the saved one in `file_name`. -/
theorem codec_roundtrip_counterexample :
    loadCached [98] (serializePlotData ⟨[5], [7], [97]⟩) = some ⟨[5], [7], [98]⟩ ∧
      (⟨[5], [7], [98]⟩ : PlotDataBits) ≠ ⟨[5], [7], [97]⟩ := by
  constructor
  · decide
  · decide

/-- C1 (amended): serializing then deserializing recovers the frequency and
magnitude sequences exactly; the byte record round-trips in full (label
included) at the deserializer level, but `read_f` returns only
`(freqs, amplitudes)`, so the label never reaches the loaded spectrum. -/
theorem codec_roundtrip (pd : PlotDataBits) (h : ValidBits pd) :
    deserializePlotData (serializePlotData pd) = some pd ∧
      read_f (serializePlotData pd) = some (pd.freqs, pd.amplitudes) := by
  refine ⟨deserialize_serialize pd h, ?_⟩
  rw [read_f, deserialize_serialize pd h]
  rfl

theorem codec_roundtrip_witness :
    ValidBits ⟨[1, 4294967295], [0], [97, 98]⟩ ∧
      deserializePlotData (serializePlotData ⟨[1, 4294967295], [0], [97, 98]⟩) =
        some ⟨[1, 4294967295], [0], [97, 98]⟩ ∧
      read_f (serializePlotData ⟨[1, 4294967295], [0], [97, 98]⟩) =
        some ([1, 4294967295], [0]) :=
  ⟨by decide, codec_roundtrip ⟨[1, 4294967295], [0], [97, 98]⟩ (by decide)⟩

/-- C10: loading a cached record returns only the frequency and magnitude
sequences: the stored label is discarded by `read_f`, and the caller in
`main` labels the resulting spectrum with the input file path. -/
theorem loadCached_relabels (pd : PlotDataBits) (pathBytes : List ℕ)
    (h : ValidBits pd) :
    loadCached pathBytes (serializePlotData pd) =
      some ⟨pd.freqs, pd.amplitudes, pathBytes⟩ := by
  rw [loadCached, read_f, deserialize_serialize pd h]
  rfl

theorem loadCached_relabels_witness :
    ValidBits ⟨[3], [4], [120]⟩ ∧
      loadCached [121] (serializePlotData ⟨[3], [4], [120]⟩) =
        some ⟨[3], [4], [121]⟩ :=
  ⟨by decide, loadCached_relabels ⟨[3], [4], [120]⟩ [121] (by decide)⟩

/-!
## Theorems: the length invariant (claim C3) -/

/-- C3 (counterexample): the claim asserts the averaged spectrum satisfies
`len(frequencies) == len(magnitudes)` *even when a later input spectrum is
longer than the first*; but the average takes its frequencies from
`plots[0]` while its amplitudes grow to the maximum length: with a first
spectrum of one bin and a second of three, the average has 1 frequency and
3 magnitudes. -/
theorem length_invariant_counterexample :
    (computeAvgPlot [⟨[10], [5], "a"⟩, ⟨[10, 20, 30], [3, 3, 3], "b"⟩]).map
        (fun p => (p.freqs.length, p.amplitudes.length)) = some (1, 3) ∧
      (1 : ℕ) ≠ 3 := by
  constructor
  · decide
  · decide

/-- C3 (amended): the transform always yields equally many frequencies and
magnitudes; the averaged spectrum does so exactly when the first spectrum's
frequency count equals the maximum magnitudes length over all inputs (in
particular when no later spectrum is longer than the first) — otherwise the
invariant breaks; and a loaded cached record has equal lengths exactly when
the stored record does (loading performs no validation). -/
theorem spectrum_length_invariant (fft : List (ℚ × ℚ) → List (ℚ × ℚ))
    (norm : ℚ × ℚ → ℚ) (samples : List ℚ) (sample_rate : ℕ)
    (plots : List PlotData) (pd : PlotDataBits) (pathBytes : List ℕ)
    (h1 : plots ≠ [])
    (h2 : (plots.headD PlotData.default).freqs.length = maxAmpLen plots)
    (h3 : ValidBits pd) (h4 : pd.freqs.length = pd.amplitudes.length) :
    (fourier_analysis fft norm samples sample_rate).1.length =
      (fourier_analysis fft norm samples sample_rate).2.length ∧
    (∃ p, computeAvgPlot plots = some p ∧
      p.freqs.length = p.amplitudes.length) ∧
    (∃ q, loadCached pathBytes (serializePlotData pd) = some q ∧
      q.freqs.length = q.amplitudes.length) := by
  refine ⟨?_, ?_, ?_⟩
  · simp [fourier_analysis, Nat.min_eq_left (Nat.div_le_self _ 2)]
  · refine ⟨⟨(plots.headD PlotData.default).freqs, avgAmplitudes plots, "average"⟩, ?_, ?_⟩
    · rw [computeAvgPlot, if_pos (by cases plots with
        | nil => exact absurd rfl h1
        | cons p ps => simp)]
    · rw [avgAmplitudes_length plots h1]
      exact h2
  · exact ⟨⟨pd.freqs, pd.amplitudes, pathBytes⟩, loadCached_relabels pd pathBytes h3, h4⟩

theorem spectrum_length_invariant_witness :
    (([⟨[10, 20], [2, 4], "a"⟩, ⟨[30], [6], "b"⟩] : List PlotData) ≠ []) ∧
    ((([⟨[10, 20], [2, 4], "a"⟩, ⟨[30], [6], "b"⟩] :
        List PlotData).headD PlotData.default).freqs.length =
      maxAmpLen [⟨[10, 20], [2, 4], "a"⟩, ⟨[30], [6], "b"⟩]) ∧
    ValidBits ⟨[9], [11], [99]⟩ ∧
    ((9 : ℕ) :: []).length = ((11 : ℕ) :: []).length ∧
    ((fourier_analysis id normSq [1, 2, 3] 100).1.length =
      (fourier_analysis id normSq [1, 2, 3] 100).2.length ∧
    (∃ p, computeAvgPlot [⟨[10, 20], [2, 4], "a"⟩, ⟨[30], [6], "b"⟩] = some p ∧
      p.freqs.length = p.amplitudes.length) ∧
    (∃ q, loadCached [100] (serializePlotData ⟨[9], [11], [99]⟩) = some q ∧
      q.freqs.length = q.amplitudes.length)) := by
  refine ⟨by simp, by decide, by decide, by decide, ?_⟩
  exact spectrum_length_invariant id normSq [1, 2, 3] 100
    [⟨[10, 20], [2, 4], "a"⟩, ⟨[30], [6], "b"⟩] ⟨[9], [11], [99]⟩ [100]
    (by simp) (by decide) (by decide) (by decide)

/-!
## Theorems: the extension dispatch (claim C9) -/

/-- C9 (counterexample): the claim says an unsupported extension "fails with
UnsupportedFormat (a distinct error value surfaced to the caller)"; in the
code the `else` branch prints "Unsupported file format" to stderr and
`return Ok(())` — `main` terminates *successfully*, no error value exists:
on a `.txt` path the outcome is the early normal exit, not a failure. -/
theorem dispatch_counterexample :
    processFiles (fun _ => .error "io") (fun _ => .error "io") id normSq
        ["song.txt".toList] [] = .unsupportedExit ∧
      ¬∃ e, processFiles (fun _ => .error "io") (fun _ => .error "io") id normSq
        ["song.txt".toList] [] = ProcessOutcome.failed e := by
  have h1 : processFiles (fun _ => .error "io") (fun _ => .error "io") id normSq
      ["song.txt".toList] [] = .unsupportedExit := by decide
  refine ⟨h1, ?_⟩
  rintro ⟨e, he⟩
  rw [h1] at he
  exact ProcessOutcome.noConfusion he

/-- C9 (amended): a path whose extension is neither `.wav` nor `.f` makes
the dispatch take the unsupported branch: the program prints a diagnostic
and returns `Ok(())` immediately (processing no further files and producing
no spectrum); this early exit is a normal termination, distinct from every
`failed` outcome — no error value is surfaced to the caller. -/
theorem dispatch_unsupported (readWavExt : List Char → Except String (List ℚ × ℕ))
    (readFExt : List Char → Except String (List ℚ × List ℚ))
    (fft : List (ℚ × ℚ) → List (ℚ × ℚ)) (norm : ℚ × ℚ → ℚ)
    (path : List Char) (rest : List (List Char)) (plots : List PlotData)
    (hw : endsWithL path ".wav".toList = false)
    (hf : endsWithL path ".f".toList = false) :
    processFiles readWavExt readFExt fft norm (path :: rest) plots =
        .unsupportedExit ∧
      ∀ e, processFiles readWavExt readFExt fft norm (path :: rest) plots ≠
        ProcessOutcome.failed e := by
  have h : processFiles readWavExt readFExt fft norm (path :: rest) plots =
      .unsupportedExit := by
    rw [processFiles, if_neg (by rw [hw]; simp), if_neg (by rw [hf]; simp)]
  exact ⟨h, fun e he => ProcessOutcome.noConfusion (h ▸ he)⟩

theorem dispatch_unsupported_witness :
    endsWithL "data/recording.mp3".toList ".wav".toList = false ∧
    endsWithL "data/recording.mp3".toList ".f".toList = false ∧
    (processFiles (fun _ => .error "io") (fun _ => .error "io") id normSq
        ["data/recording.mp3".toList] [] = .unsupportedExit ∧
      ∀ e, processFiles (fun _ => .error "io") (fun _ => .error "io") id normSq
        ["data/recording.mp3".toList] [] ≠ ProcessOutcome.failed e) := by
  refine ⟨by decide, by decide, ?_⟩
  exact dispatch_unsupported (fun _ => .error "io") (fun _ => .error "io") id normSq
    "data/recording.mp3".toList [] [] (by decide) (by decide)

end WavAnalysis
